import Mathlib

/-!
# Verification of the CreatureGathererTools script compiler

A shallow embedding of the compiler pipeline of this repository:
lexer (`src/processor/lexer.rs`), recursive-descent parser and symbol
interner (`src/processor/script_parser.rs`), bytecode encoder
(`src/processor/ast.rs`) and chunk assembler (`src/processor/blob.rs`),
together with theorems settling the specification claims.

Modelling conventions:
* Rust `u16`/`u32` values are modelled as `Nat`; wherever the source
  performs a truncating `as` cast we take the value modulo `2 ^ w`
  explicitly.  Counter increments in the source use Rust's checked
  arithmetic on `u16` (which aborts rather than wraps in the profile the
  repository's own tests run under), so the `Nat` model agrees with the
  source on every state a non-aborted run can reach.
* A Rust panic (`unwrap` on `None`/`Err`, out-of-bounds indexing,
  `unreachable!`) is modelled as an explicit `panicked` outcome.
* `HashMap<String, _>` tables are modelled as association lists in
  insertion order; the source only ever queries them with `get` /
  `contains_key`, never iterates them, so lookup is the whole interface.
* Script object pixel coordinates are `f32` in the source and are
  immediately truncated by an `as i32` cast; we model the coordinate by
  that resulting integer (every claim only concerns integral positions).
-/

namespace CGT

/-! ## Tokens (`lexer.rs`, `enum Token`) -/

inductive Token where
  | Ident (s : String)
  | Number (n : Nat)     -- `u16` in the source
  | Text (s : String)
  | At (s : String)
  | Bang (s : String)
  | Semicolon            -- declared in the source, never produced
  | Eof
deriving DecidableEq, Repr

/-- One item of the lexer's fallible iterator: `Some(Ok(tok))`,
`Some(Err(msg))`, or an aborting panic inside `next()`. -/
inductive LexItem where
  | ok (t : Token)
  | err (e : String)
  | panicked
deriving DecidableEq, Repr

/-! ## Lexer (`lexer.rs`) -/

/-- Whitespace skipped by `Lexer::next` (space, tab, carriage return). -/
def rsIsWs (c : Char) : Bool := c = ' ' || c = '\t' || c = '\r'

/-- Rust `char::is_ascii_digit`. -/
def rsIsDigit (c : Char) : Bool := '0' ≤ c && c ≤ '9'

/-- Rust `char::is_ascii_alphabetic`. -/
def rsIsAlpha (c : Char) : Bool := ('a' ≤ c && c ≤ 'z') || ('A' ≤ c && c ≤ 'Z')

/-- The identifier-continuation predicate of `Lexer::read_identifier`:
`c.is_ascii_alphanumeric() || c == '_'`. -/
def rsIsAlnumU (c : Char) : Bool := rsIsAlpha c || rsIsDigit c || c = '_'

/-- Source `Lexer::read_identifier`: the first character is pushed unconditionally,
then the maximal run satisfying `rsIsAlnumU` is consumed. Returns the
identifier and the remaining characters. -/
def readIdentifier (first : Char) (cs : List Char) : String × List Char :=
  (String.mk (first :: cs.takeWhile rsIsAlnumU), cs.dropWhile rsIsAlnumU)

/-- Numeric value of a run of decimal digits. -/
def digitsVal (ds : List Char) : Nat :=
  ds.foldl (fun a c => a * 10 + (c.toNat - 48)) 0

/-- Source `Lexer::read_number`: collects the maximal digit run, then
`num.parse::<u32>().unwrap()` — the `unwrap` panics when the value does
not fit in `u32`; a value fitting `u32` but exceeding `u16::MAX` is a
lexical error (note the source's misspelling "vaule"). -/
def readNumber (first : Char) (cs : List Char) : LexItem × List Char :=
  let ds := first :: cs.takeWhile rsIsDigit
  let rest := cs.dropWhile rsIsDigit
  let value := digitsVal ds
  if value ≥ 4294967296 then (LexItem.panicked, rest)
  else if value > 65535 then
    (LexItem.err ("vaule too large for uint16: " ++ toString value), rest)
  else (LexItem.ok (Token.Number value), rest)

/-- Source `Lexer::read_text`: everything up to the next `\x7d`; reaching end of
input without one is the error `no closing \x7d found`. -/
def readText (cs : List Char) : LexItem × List Char :=
  let pre := cs.takeWhile (fun c => c ≠ '}')
  match cs.dropWhile (fun c => c ≠ '}') with
  | _ :: r => (LexItem.ok (Token.Text (String.mk pre)), r)
  | [] => (LexItem.err "no closing \x7d found", [])

/-- Source `Lexer::next` (the `Iterator` impl): `none` once finished, otherwise
skip whitespace and dispatch on the next character.  State is the pair
(remaining characters, `finished` flag). -/
def lexNext (cs0 : List Char) (finished : Bool) :
    Option (LexItem × List Char × Bool) :=
  if finished then none
  else
    let cs := cs0.dropWhile rsIsWs
    match cs with
    | [] => some (LexItem.err "Missing end of script ;", [], false)
    | ch :: rest =>
      if ch = '@' then
        -- `self.next_char().unwrap_or('\0')` then `read_identifier`
        let fc := match rest with | [] => Char.ofNat 0 | c :: _ => c
        let rest1 := match rest with | [] => ([] : List Char) | _ :: r => r
        let (name, rest2) := readIdentifier fc rest1
        some (LexItem.ok (Token.At name), rest2, false)
      else if ch = '!' then
        let fc := match rest with | [] => Char.ofNat 0 | c :: _ => c
        let rest1 := match rest with | [] => ([] : List Char) | _ :: r => r
        let (name, rest2) := readIdentifier fc rest1
        some (LexItem.ok (Token.Bang name), rest2, false)
      else if ch = '{' then
        let (item, r) := readText rest
        some (item, r, false)
      else if ch = ';' then
        some (LexItem.ok Token.Eof, rest, true)
      else if rsIsDigit ch then
        let (item, r) := readNumber ch rest
        some (item, r, false)
      else if rsIsAlpha ch || ch = '_' then
        let (name, r) := readIdentifier ch rest
        some (LexItem.ok (Token.Ident name), r, false)
      else
        some (LexItem.err ("Unexpected character " ++ String.mk [ch]), rest, false)

/-- The finite stream of lexer items a parser can observe: items are
produced until the terminal `Eof` token (after which `next` yields
`none`), an error, or a panic; the parser never pulls past an error, so
truncating there is faithful.  Fuel bounds the number of items; one more
than the character count always suffices since every emitted token
consumes at least one character. -/
def lexItems : Nat → List Char → Bool → List LexItem
  | 0, _, _ => []
  | n + 1, cs, fin =>
    match lexNext cs fin with
    | none => []
    | some (LexItem.ok t, cs', fin') => LexItem.ok t :: lexItems n cs' fin'
    | some (item, _, _) => [item]

/-- Tokenize a whole script source string. -/
def lexString (s : String) : List LexItem :=
  lexItems (s.length + 1) s.toList false

/-! ## AST (`ast.rs`) -/

/-- Source `struct Text` (`ast.rs`): an interned name/string literal with its table index
(`u16` in the source). -/
structure Text where
  text : String
  index : Nat
deriving DecidableEq, Repr

/-- Source `enum Location`. -/
inductive Location where
  | Cords (x y : Nat)
  | Tag (t : Text)
deriving DecidableEq, Repr

/-- Source `enum Condition`. -/
inductive Condition where
  | FlagSet (f : Text)
  | FlagClear (f : Text)
deriving DecidableEq, Repr

mutual
/-- Source `enum Cmd`.  The parser source constructs the teleport variant under
the name `Cmd::TpIf`; `ast.rs` declares it as `Tp` and the design notes
direct treating them as the single canonical variant `Tp`. -/
inductive Cmd where
  | Msg (text : Text)
  | TMsg (atLoc : Location) (text : Text)
  | Tp (fromLoc toLoc : Location)
  | If (condition : Condition) (branches : Branch)
  | SetFlag (flag : Text)
  | UnsetFlag (flag : Text)
  | ReadFlag (flag : Text)
  | End

/-- Source `enum Branch`. -/
inductive Branch where
  | ThenElse (thenCmd elseCmd : Cmd)
  | Then (thenCmd : Cmd)
end

/-! ## Bytecode encoder (`ast.rs`, `impl ToBytecode`) -/

/-- Source `u16::to_le_bytes` (helper `write_u16`): two little-endian bytes. -/
def u16le (v : Nat) : List Nat := [v % 256, v / 256 % 256]

/-- Source `impl ToBytecode for Text`. -/
def Text.toBytes (t : Text) : List Nat := u16le t.index

/-- Source `impl ToBytecode for Location`. -/
def Location.toBytes : Location → List Nat
  | Location.Cords x y => 0 :: (u16le x ++ u16le y)
  | Location.Tag t => 1 :: t.toBytes

/-- Source `impl ToBytecode for Condition`. -/
def Condition.toBytes : Condition → List Nat
  | Condition.FlagSet f => 0 :: f.toBytes
  | Condition.FlagClear f => 1 :: f.toBytes

mutual
/-- Source `impl ToBytecode for Cmd`: one opcode byte (variant order 0–7)
followed by the payload fields in declaration order. -/
def Cmd.toBytes : Cmd → List Nat
  | Cmd.Msg text => 0 :: text.toBytes
  | Cmd.TMsg atLoc text => 1 :: (atLoc.toBytes ++ text.toBytes)
  | Cmd.Tp fromLoc toLoc => 2 :: (fromLoc.toBytes ++ toLoc.toBytes)
  | Cmd.If condition branches => 3 :: (condition.toBytes ++ branches.toBytes)
  | Cmd.SetFlag flag => 4 :: flag.toBytes
  | Cmd.UnsetFlag flag => 5 :: flag.toBytes
  | Cmd.ReadFlag flag => 6 :: flag.toBytes
  | Cmd.End => [7]

/-- Source `impl ToBytecode for Branch`: a variant tag byte followed by the
inline encodings of the sub-commands. -/
def Branch.toBytes : Branch → List Nat
  | Branch.ThenElse t e => 0 :: (t.toBytes ++ e.toBytes)
  | Branch.Then t => 1 :: t.toBytes
end

/-! ## Symbol tables (`script_parser.rs`, `struct Controller`) -/

/-- Source `HashMap::get` on an association list. -/
def alLookup {α : Type} : List (String × α) → String → Option α
  | [], _ => none
  | (k, v) :: rest, key => if k = key then some v else alLookup rest key

/-- The parser's shared interning state: three independent name→index
tables with their next-free counters (`u16` in the source, see the
modelling conventions). -/
structure Controller where
  tags : List (String × Nat)
  flags : List (String × Nat)
  text : List (String × Nat)
  tagCount : Nat
  flagCount : Nat
  textCount : Nat
deriving DecidableEq, Repr

/-- Source `Controller::new`. -/
def Controller.new : Controller := ⟨[], [], [], 0, 0, 0⟩

/-- Source `Controller::insert_tag`: if the name is absent, bind it to the
current counter and increment the counter; either way return the name's
index.  (The source writes this as a `contains_key` guard followed by an
infallible `get`; this is the same function.) -/
def insertTag (c : Controller) (tag : String) : Nat × Controller :=
  match alLookup c.tags tag with
  | some v => (v, c)
  | none =>
    (c.tagCount,
     { c with tags := c.tags ++ [(tag, c.tagCount)], tagCount := c.tagCount + 1 })

/-- Source `Controller::insert_flag`. -/
def insertFlag (c : Controller) (flag : String) : Nat × Controller :=
  match alLookup c.flags flag with
  | some v => (v, c)
  | none =>
    (c.flagCount,
     { c with flags := c.flags ++ [(flag, c.flagCount)], flagCount := c.flagCount + 1 })

/-- Source `Controller::insert_text`. -/
def insertText (c : Controller) (t : String) : Nat × Controller :=
  match alLookup c.text t with
  | some v => (v, c)
  | none =>
    (c.textCount,
     { c with text := c.text ++ [(t, c.textCount)], textCount := c.textCount + 1 })

/-! ## Parser (`script_parser.rs`, `struct Parser`)

Each parser method is a function from the remaining lexer stream and the
controller to a result; the controller is returned in every outcome
because the source mutates it in place (so its updates survive an error
return). -/

/-- Outcome of one parser method: success (with the value, the remaining
stream and the controller), a parse error, or a panic. -/
inductive PR (α : Type) where
  | ok (a : α) (s : List LexItem) (c : Controller)
  | err (e : String) (c : Controller)
  | panicked (c : Controller)
deriving DecidableEq, Repr

/-- The location lookup table (`LocationTags = HashMap<String,(u16,u16)>`). -/
def LocTable : Type := List (String × (Nat × Nat))

/-- Rust `{:?}` rendering of a token, used in parse error messages
(string escaping inside the quotes is omitted; no claim concerns a
message containing an escape). -/
def Token.debugFmt : Token → String
  | Token.Ident s => "Ident(\"" ++ s ++ "\")"
  | Token.Number n => "Number(" ++ toString n ++ ")"
  | Token.Text s => "Text(\"" ++ s ++ "\")"
  | Token.At s => "At(\"" ++ s ++ "\")"
  | Token.Bang s => "Bang(\"" ++ s ++ "\")"
  | Token.Semicolon => "Semicolon"
  | Token.Eof => "Eof"

/-- Source `Parser::parse_text`: `self.lex.next().unwrap()` (panics on an
exhausted stream) must be a text literal; anything else — including a
lexer error — is the error `invalid token after tp`. -/
def parseText (s : List LexItem) (c : Controller) : PR String :=
  match s with
  | [] => PR.panicked c
  | item :: rest =>
    match item with
    | LexItem.ok (Token.Text t) => PR.ok t rest c
    | LexItem.panicked => PR.panicked c
    | _ => PR.err "invalid token after tp" c

/-- Source `Parser::parse_location`: an `@name` reference interns the name into
the tag table *before* resolving it against the location table (failure
names the missing tag); a number must be followed by a second number. A
lexer error on the first token is propagated as-is; on the second it is
prefixed with `invalid token after tp `. -/
def parseLocation (s : List LexItem) (c : Controller) (locs : LocTable) :
    PR Location :=
  match s with
  | [] => PR.panicked c
  | item :: rest =>
    match item with
    | LexItem.err e => PR.err e c
    | LexItem.panicked => PR.panicked c
    | LexItem.ok tok =>
      match tok with
      | Token.At at_ =>
        let c1 := (insertTag c at_).2
        match alLookup locs at_ with
        | some cords => PR.ok (Location.Cords cords.1 cords.2) rest c1
        | none => PR.err ("location " ++ at_ ++ " not found!") c1
      | Token.Number n1 =>
        match rest with
        | [] => PR.panicked c
        | item2 :: rest2 =>
          match item2 with
          | LexItem.err e => PR.err ("invalid token after tp " ++ e) c
          | LexItem.panicked => PR.panicked c
          | LexItem.ok (Token.Number n2) => PR.ok (Location.Cords n1 n2) rest2 c
          | LexItem.ok _ => PR.err "invalid token after number" c
      | _ => PR.err "invalid token after tp" c

/-- Source `Parser::parse_condition`: an identifier is a flag-set condition, a
`!name` a flag-clear condition; the flag name is interned either way. -/
def parseCondition (s : List LexItem) (c : Controller) : PR Condition :=
  match s with
  | [] => PR.panicked c
  | item :: rest =>
    match item with
    | LexItem.err e => PR.err e c
    | LexItem.panicked => PR.panicked c
    | LexItem.ok tok =>
      match tok with
      | Token.Ident flag =>
        let r := insertFlag c flag
        PR.ok (Condition.FlagSet ⟨flag, r.1⟩) rest r.2
      | Token.Bang flag =>
        let r := insertFlag c flag
        PR.ok (Condition.FlagClear ⟨flag, r.1⟩) rest r.2
      | _ => PR.err "invalid token after if" c

/-- Rust `str::starts_with` on the character lists. -/
def listIsPre : List Char → List Char → Bool
  | [], _ => true
  | _ :: _, [] => false
  | a :: as, b :: bs => a = b && listIsPre as bs

/-- Rust `str::starts_with`. -/
def rsStartsWith (s p : String) : Bool := listIsPre p.toList s.toList

/-- Source `Parser::parse_flag_cmd`: one identifier that must start with
`flag_`; its name is interned into the flag table.  A `None` from the
lexer is `expected flag after command` (via `ok_or`), a lexer error is
propagated, and the impossible fourth opcode arm is `unreachable!`. -/
def parseFlagCmd (op : String) (s : List LexItem) (c : Controller) : PR Cmd :=
  match s with
  | [] => PR.err "expected flag after command" c
  | item :: rest =>
    match item with
    | LexItem.err e => PR.err e c
    | LexItem.panicked => PR.panicked c
    | LexItem.ok tok =>
      match tok with
      | Token.Ident f =>
        if rsStartsWith f "flag_" then
          let r := insertFlag c f
          match op with
          | "setflag" => PR.ok (Cmd.SetFlag ⟨f, r.1⟩) rest r.2
          | "unsetflag" => PR.ok (Cmd.UnsetFlag ⟨f, r.1⟩) rest r.2
          | "readflag" => PR.ok (Cmd.ReadFlag ⟨f, r.1⟩) rest r.2
          | _ => PR.panicked r.2
        else PR.err ("invalid flag token: " ++ tok.debugFmt) c
      | _ => PR.err ("invalid flag token: " ++ tok.debugFmt) c

/-- Source `Parser::parse_msg`: one text literal, interned. -/
def parseMsg (s : List LexItem) (c : Controller) : PR Cmd :=
  match parseText s c with
  | PR.ok t s1 c1 =>
    let r := insertText c1 t
    PR.ok (Cmd.Msg ⟨t, r.1⟩) s1 r.2
  | PR.err e c1 => PR.err e c1
  | PR.panicked c1 => PR.panicked c1

/-- Source `Parser::parse_tmsg`: a location then a text literal. -/
def parseTmsg (s : List LexItem) (c : Controller) (locs : LocTable) : PR Cmd :=
  match parseLocation s c locs with
  | PR.err e c1 => PR.err e c1
  | PR.panicked c1 => PR.panicked c1
  | PR.ok loc s1 c1 =>
    match parseText s1 c1 with
    | PR.ok t s2 c2 =>
      let r := insertText c2 t
      PR.ok (Cmd.TMsg loc ⟨t, r.1⟩) s2 r.2
    | PR.err e c2 => PR.err e c2
    | PR.panicked c2 => PR.panicked c2

/-- Source `Parser::parse_tp`: two locations.  (Constructed as `Cmd::TpIf` in
the parser source, the canonical `Tp` variant.) -/
def parseTp (s : List LexItem) (c : Controller) (locs : LocTable) : PR Cmd :=
  match parseLocation s c locs with
  | PR.err e c1 => PR.err e c1
  | PR.panicked c1 => PR.panicked c1
  | PR.ok fromLoc s1 c1 =>
    match parseLocation s1 c1 locs with
    | PR.err e c2 => PR.err e c2
    | PR.panicked c2 => PR.panicked c2
    | PR.ok toLoc s2 c2 => PR.ok (Cmd.Tp fromLoc toLoc) s2 c2

/-- Source `Parser::parse_branch`, parameterised by the command parser it
recurses into: consume one token; the closing keyword `endif` means
"no branch here" (`Ok(None)`); any other identifier is discarded and a
full command is parsed as the branch body; any non-identifier token is
an error. -/
def parseBranchF (pc : List LexItem → Controller → PR Cmd)
    (s : List LexItem) (c : Controller) : PR (Option Cmd) :=
  match s with
  | [] => PR.panicked c
  | item :: rest =>
    match item with
    | LexItem.err e => PR.err e c
    | LexItem.panicked => PR.panicked c
    | LexItem.ok tok =>
      match tok with
      | Token.Ident t =>
        if t = "endif" then PR.ok none rest c
        else
          match pc rest c with
          | PR.ok cmd s1 c1 => PR.ok (some cmd) s1 c1
          | PR.err e c1 => PR.err e c1
          | PR.panicked c1 => PR.panicked c1
      | _ => PR.err "invalid token after if" c

/-- Final phase of `Parser::parse_if` when it built a `ThenElse` pair:
`self.lex.next().unwrap()` must be the identifier `endif` (a panicking
unwrap on an exhausted stream; a lexer error or non-identifier token is
`invalid token after tp`; a wrong identifier is `invalid token after
if, expected endif`). -/
def parseIfEnd (condition : Condition) (thenB elseB : Cmd)
    (s3 : List LexItem) (c3 : Controller) : PR Cmd :=
  match s3 with
  | [] => PR.panicked c3
  | item :: s4 =>
    match item with
    | LexItem.ok (Token.Ident id_) =>
      if id_ = "endif" then
        PR.ok (Cmd.If condition (Branch.ThenElse thenB elseB)) s4 c3
      else PR.err "invalid token after if, expected endif" c3
    | LexItem.panicked => PR.panicked c3
    | _ => PR.err "invalid token after tp" c3

/-- Phase of `Parser::parse_if` after the then-branch: the optional
else-branch via `parse_branch`; its absence gives a then-only `If`
directly, its presence requires the closing `endif` next. -/
def parseIfElse (pc : List LexItem → Controller → PR Cmd)
    (condition : Condition) (thenB : Cmd) (s2 : List LexItem)
    (c2 : Controller) : PR Cmd :=
  match parseBranchF pc s2 c2 with
  | PR.err e c3 => PR.err e c3
  | PR.panicked c3 => PR.panicked c3
  | PR.ok none s3 c3 => PR.ok (Cmd.If condition (Branch.Then thenB)) s3 c3
  | PR.ok (some elseB) s3 c3 => parseIfEnd condition thenB elseB s3 c3

/-- Phase of `Parser::parse_if` after the condition: the mandatory
then-branch via `parse_branch`. -/
def parseIfThen (pc : List LexItem → Controller → PR Cmd)
    (condition : Condition) (s1 : List LexItem) (c1 : Controller) : PR Cmd :=
  match parseBranchF pc s1 c1 with
  | PR.err e c2 => PR.err e c2
  | PR.panicked c2 => PR.panicked c2
  | PR.ok none _ c2 => PR.err "if branch must have then branch" c2
  | PR.ok (some thenB) s2 c2 => parseIfElse pc condition thenB s2 c2

/-- Source `Parser::parse_if`, parameterised by the command parser used for the
branches: a condition, a mandatory then-branch, an optional else-branch
(both via `parse_branch`); when an else-branch is present the next token
must be the identifier `endif`. -/
def parseIfF (pc : List LexItem → Controller → PR Cmd)
    (s : List LexItem) (c : Controller) : PR Cmd :=
  match parseCondition s c with
  | PR.err e c1 => PR.err e c1
  | PR.panicked c1 => PR.panicked c1
  | PR.ok condition s1 c1 => parseIfThen pc condition s1 c1

/-- Source `Parser::parse_cmd`: dispatch on the leading identifier.  Fuel
bounds the `if`-nesting depth; one more than the stream length always
suffices because each nesting level consumes tokens before recursing. -/
def parseCmd : Nat → List LexItem → Controller → LocTable → PR Cmd
  | 0, _, c, _ => PR.panicked c
  | n + 1, s, c, locs =>
    match s with
    | [] => PR.err "unexpected end of script" c
    | item :: rest =>
      match item with
      | LexItem.err e => PR.err ("parse: " ++ e) c
      | LexItem.panicked => PR.panicked c
      | LexItem.ok tok =>
        match tok with
        | Token.Ident ident =>
          match ident with
          | "msg" => parseMsg rest c
          | "tmsg" => parseTmsg rest c locs
          | "tp" => parseTp rest c locs
          | "if" => parseIfF (fun s' c' => parseCmd n s' c' locs) rest c
          | "setflag" => parseFlagCmd ident rest c
          | "unsetflag" => parseFlagCmd ident rest c
          | "readflag" => parseFlagCmd ident rest c
          | t => PR.err ("parse: invalid ident token: " ++ t) c
        | _ => PR.err ("parse: invalid token: " ++ tok.debugFmt) c

/-- Source `Parser::parse_if` at a given fuel (the form the `"if"` arm of
`parseCmd` unfolds to). -/
def parseIf (n : Nat) (s : List LexItem) (c : Controller) (locs : LocTable) :
    PR Cmd :=
  parseIfF (fun s' c' => parseCmd n s' c' locs) s c

/-- Source `Parser::parse_branch` at a given fuel. -/
def parseBranch (n : Nat) (s : List LexItem) (c : Controller)
    (locs : LocTable) : PR (Option Cmd) :=
  parseBranchF (fun s' c' => parseCmd n s' c' locs) s c

/-- One pass of the `Parser::parse` loop body: on a parsed command,
recurse on the rest of the stream and push the command in front. -/
def parseLoopStep (recur : List LexItem → Controller → PR (List Cmd))
    (r : PR Cmd) : PR (List Cmd) :=
  match r with
  | PR.err e c1 => PR.err e c1
  | PR.panicked c1 => PR.panicked c1
  | PR.ok cmd s1 c1 =>
    match recur s1 c1 with
    | PR.ok cmds s2 c2 => PR.ok (cmd :: cmds) s2 c2
    | PR.err e c2 => PR.err e c2
    | PR.panicked c2 => PR.panicked c2

/-- Source `Parser::parse`: `while self.lex.peek().unwrap().clone() != Ok(Eof)`
parse a command and push it.  Peeking an exhausted stream panics. -/
def parseLoop : Nat → List LexItem → Controller → LocTable →
    PR (List Cmd)
  | 0, _, c, _ => PR.panicked c
  | n + 1, s, c, locs =>
    match s with
    | [] => PR.panicked c
    | LexItem.ok Token.Eof :: _ => PR.ok [] s c
    | _ =>
      parseLoopStep (fun s' c' => parseLoop n s' c' locs)
        (parseCmd (n + 1) s c locs)

/-- Lex one script and run `Parser::parse` on the resulting stream. -/
def parseFull (src : String) (c : Controller) (locs : LocTable) :
    PR (List Cmd) :=
  let items := lexString src
  parseLoop (items.length + 1) items c locs

/-! ## Chunk grid and `parse_scripts` (`model.rs`, `script_parser.rs`) -/

/-- Constant `MAP_W` (tiles). -/
def MAP_W : Int := 256
/-- Constant `MAP_H` (tiles). -/
def MAP_H : Int := 256
/-- Constant `CHUNK_W` (tiles per chunk, horizontally). -/
def CHUNK_W : Int := 8
/-- Constant `CHUNK_H` (tiles per chunk, vertically). -/
def CHUNK_H : Int := 4
/-- Constant `CHUNK_COLS = MAP_W / CHUNK_W`. -/
def CHUNK_COLS : Int := MAP_W / CHUNK_W
/-- Constant `CHUNK_ROWS = MAP_H / CHUNK_H`. -/
def CHUNK_ROWS : Int := MAP_H / CHUNK_H
/-- Constant `TOTAL_CHUNKS = (CHUNK_COLS * CHUNK_ROWS) as usize`. -/
def TOTAL_CHUNKS : Nat := (CHUNK_COLS * CHUNK_ROWS).toNat

/-- Source `fn chunk_index`: integer-divide the tile coordinates by the chunk
dimensions (Rust `i32` division truncates toward zero, `Int.tdiv`) and
linearise row-major; the final `as usize` cast wraps modulo `2 ^ 64`. -/
def chunk_index (x y : Int) : Nat :=
  let cx := x.tdiv CHUNK_W
  let cy := y.tdiv CHUNK_H
  ((cy * CHUNK_COLS + cx).emod (2 ^ 64)).toNat

/-- Source `struct ScriptEntry` (`model.rs`): one script object.  `x`/`y` are
`f32` pixel positions in the source; we model the integer each is
truncated to by the `as i32` cast in `parse_scripts`. -/
structure ScriptEntry where
  id : Int
  script : String
  x : Int
  y : Int

/-- Source `struct Script` (`model.rs`): a parsed script with its tile
coordinates.  (The parser source also stashes the raw text in a field
that `model.rs` does not declare; no consumer reads it.) -/
structure Script where
  body : List Cmd
  x : Int
  y : Int

/-- Source `struct ParsedScripts` (`model.rs`). -/
structure ParsedScripts where
  chunks : List (List Script)
  tags : List (String × Nat)
  flags : List (String × Nat)
  texts : List (String × Nat)

/-- Result of a whole-pipeline stage: `Ok`, `Err`, or an aborting panic. -/
inductive PRes (α : Type) where
  | ok (a : α)
  | err (e : String)
  | panicked

/-- The loop body of `fn parse_scripts` over the remaining entries:
parse each script (threading the controller), compute its tile
coordinates and chunk index, and push it into its chunk unless its body
is empty.  `chunks[idx]` panics when the index is out of bounds. -/
def parseScriptsAux (locs : LocTable) :
    List ScriptEntry → List (List Script) → Controller → PRes ParsedScripts
  | [], chunks, c =>
    PRes.ok ⟨chunks, c.tags, c.flags, c.text⟩
  | e :: rest, chunks, c =>
    match parseFull e.script c locs with
    | PR.err msg _ => PRes.err ("id " ++ toString e.id ++ " failed: " ++ msg)
    | PR.panicked _ => PRes.panicked
    | PR.ok cmds _ c' =>
      let xi := e.x.tdiv 16
      let yi := e.y.tdiv 16
      let s : Script := ⟨cmds, xi, yi⟩
      let idx := chunk_index xi yi
      if s.body.isEmpty then parseScriptsAux locs rest chunks c'
      else
        match chunks.get? idx with
        | none => PRes.panicked
        | some bucket =>
          parseScriptsAux locs rest (chunks.set idx (bucket ++ [s])) c'

/-- Source `fn parse_scripts`: start from `TOTAL_CHUNKS` empty buckets and a
fresh controller. -/
def parse_scripts (scripts : List ScriptEntry) (locs : LocTable) :
    PRes ParsedScripts :=
  parseScriptsAux locs scripts (List.replicate TOTAL_CHUNKS []) Controller.new

/-! ## Chunk assembler (`blob.rs`) -/

/-- Source `struct ProcessedScripts`: one byte buffer per chunk plus the global
offset list (`u16` entries). -/
structure ProcessedScripts where
  blob : List (List Nat)
  offsets : List Nat
deriving DecidableEq, Repr

/-- The inner command loop of `assemble_scripts` for one script body:
for each command record `base_offset + tmp.len() as u16` (both `as u16`
casts and the `u16` addition taken modulo `2 ^ 16`) into the offset
list, then append the command's encoding and a single `0x00` terminator
to the chunk buffer. -/
def buildCmds (base : Nat) : List Cmd → List Nat → List Nat →
    List Nat × List Nat
  | [], tmp, offsets => (tmp, offsets)
  | cmd :: rest, tmp, offsets =>
    let offsets := offsets ++ [(base + tmp.length % 65536) % 65536]
    let tmp := tmp ++ cmd.toBytes ++ [0]
    buildCmds base rest tmp offsets

/-- The per-chunk script loop of `assemble_scripts`. -/
def buildChunk (base : Nat) : List Script → List Nat → List Nat →
    List Nat × List Nat
  | [], tmp, offsets => (tmp, offsets)
  | s :: rest, tmp, offsets =>
    let r := buildCmds base s.body tmp offsets
    buildChunk base rest r.1 r.2

/-- The chunk loop of `fn assemble_scripts`: each chunk is assembled
into a temporary buffer with `base_offset = blob.len() as u16` (the
number of chunk buffers already pushed); a buffer longer than 128 bytes
aborts with the chunk-overflow error, otherwise it is pushed onto the
blob. -/
def assembleAux : List (List Script) → Nat → List (List Nat) → List Nat →
    Except String ProcessedScripts
  | [], _, blob, offsets => Except.ok ⟨blob, offsets⟩
  | chunk :: rest, chunkIdx, blob, offsets =>
    let base := blob.length % 65536
    let r := buildChunk base chunk [] offsets
    if r.1.length > 128 then
      Except.error ("chunk " ++ toString chunkIdx ++ " too large, " ++
        toString r.1.length ++ " bytes instead of 128")
    else
      assembleAux rest (chunkIdx + 1) (blob ++ [r.1]) r.2

/-- Source `fn assemble_scripts`. -/
def assemble_scripts (parsed : ParsedScripts) : Except String ProcessedScripts :=
  assembleAux parsed.chunks 0 [] []

/-- The parse-then-assemble pipeline on one ordered script list and
location table (`parse_scripts` followed by `assemble_scripts`, as in
`processor::run`). -/
def compileScripts (scripts : List ScriptEntry) (locs : LocTable) :
    PRes ProcessedScripts :=
  match parse_scripts scripts locs with
  | PRes.err e => PRes.err e
  | PRes.panicked => PRes.panicked
  | PRes.ok parsed =>
    match assemble_scripts parsed with
    | Except.ok r => PRes.ok r
    | Except.error e => PRes.err e

/-! ## Concrete scenarios used by the claim theorems -/

/-- Scenario D input: two one-`Msg` scripts at tile positions (1,1) and
(2,1), i.e. pixel positions (16,16) and (32,16). -/
def scenD_scripts : List ScriptEntry :=
  [⟨1, "msg {a};", 16, 16⟩, ⟨2, "msg {b};", 32, 16⟩]

/-- Scenario D parsed form: both scripts in chunk 0, texts interned to
indices 0 and 1, the other 2047 chunks empty. -/
def scenD_parsed : ParsedScripts :=
  ⟨[⟨[Cmd.Msg ⟨"a", 0⟩], 1, 1⟩, ⟨[Cmd.Msg ⟨"b", 1⟩], 2, 1⟩] ::
     List.replicate 2047 [],
   [], [], [("a", 0), ("b", 1)]⟩

/-- Scenario E input to the assembler: 129 copies of a one-`Msg` script
in chunk 0, the other 2047 chunks empty. -/
def scenE_parsed : ParsedScripts :=
  ⟨List.replicate 129 ⟨[Cmd.Msg ⟨"x", 0⟩], 0, 0⟩ :: List.replicate 2047 [],
   [], [], [("x", 0)]⟩

/-- A compilation whose single one-`Msg` script sits at pixel (128,0),
tile (8,0) — the first column of chunk 1. -/
def chunk1_scripts : List ScriptEntry := [⟨7, "msg {a};", 128, 0⟩]

/-- Parsed form of `chunk1_scripts`: chunk 0 empty, the script in
chunk 1, the remaining 2046 chunks empty. -/
def chunk1_parsed : ParsedScripts :=
  ⟨[] :: [⟨[Cmd.Msg ⟨"a", 0⟩], 8, 0⟩] :: List.replicate 2046 [],
   [], [], [("a", 0)]⟩

/-- Assembled form of `chunk1_scripts`: the single recorded offset is 1
(the number of previously pushed chunk buffers plus the position inside
the chunk), although the command's encoding starts at byte 0 of its
chunk's buffer and at byte 0 of the concatenated output. -/
def chunk1_out : ProcessedScripts :=
  ⟨[] :: [0, 0, 0, 0] :: List.replicate 2046 [], [1]⟩

/-- Token stream reaching `parse_if` for the then-only source
`"if flag_X then setflag flag_Y endif;"` (the `if` keyword itself
already consumed by `parse_cmd`). -/
def c2w_stream : List LexItem :=
  [LexItem.ok (Token.Ident "flag_X"), LexItem.ok (Token.Ident "then"),
   LexItem.ok (Token.Ident "setflag"), LexItem.ok (Token.Ident "flag_Y"),
   LexItem.ok (Token.Ident "endif"), LexItem.ok Token.Eof]

/-- Controller after interning `flag_X`. -/
def c2w_c1 : Controller := ⟨[], [("flag_X", 0)], [], 0, 1, 0⟩

/-- Controller after interning `flag_X` and `flag_Y`. -/
def c2w_c2 : Controller := ⟨[], [("flag_X", 0), ("flag_Y", 1)], [], 0, 2, 0⟩

/-! ## Auxiliary notions for the invariant claims -/

/-- Encoded size of a command sequence: each command's bytes plus its
one-byte terminator. -/
def cmdsSize (cmds : List Cmd) : Nat :=
  (cmds.map (fun c => c.toBytes.length + 1)).sum

/-- Encoded size of one chunk's buffer: the commands of its scripts in
order. -/
def chunkSize (scripts : List Script) : Nat :=
  (scripts.map (fun s => cmdsSize s.body)).sum

/-- The symbol-table invariant of the spec: the indices recorded in a
table are exactly the contiguous range `0..count` (in first-occurrence
order, since the model lists bindings in insertion order). -/
def tableInv (t : List (String × Nat)) (count : Nat) : Prop :=
  t.map Prod.snd = List.range count

/-- One intern operation performed while parsing scripts: the three
`Controller::insert_*` methods are the only writers of the tables. -/
inductive SymOp where
  | tag (name : String)
  | flag (name : String)
  | text (name : String)

/-- Apply one intern operation to the controller state. -/
def applySymOp (c : Controller) : SymOp → Controller
  | SymOp.tag name => (insertTag c name).2
  | SymOp.flag name => (insertFlag c name).2
  | SymOp.text name => (insertText c name).2

/-- All three tables satisfy the range invariant, and their keys are
distinct (each name has a single binding). -/
def controllerInv (c : Controller) : Prop :=
  tableInv c.tags c.tagCount ∧ tableInv c.flags c.flagCount ∧
    tableInv c.text c.textCount ∧
    (c.tags.map Prod.fst).Nodup ∧ (c.flags.map Prod.fst).Nodup ∧
    (c.text.map Prod.fst).Nodup

/-! ## Theorems -/

set_option maxRecDepth 8000

/-- Assembling a run of empty chunks appends one empty buffer per chunk
and records no offsets. -/
theorem assembleAux_replicate_nil (k : Nat) :
    ∀ (i : Nat) (blob : List (List Nat)) (offsets : List Nat),
      assembleAux (List.replicate k []) i blob offsets =
        Except.ok ⟨blob ++ List.replicate k [], offsets⟩ := by
  induction k with
  | zero => intro i blob offsets; simp [assembleAux]
  | succ k ih =>
    intro i blob offsets
    rw [List.replicate_succ]
    show assembleAux ([] :: List.replicate k []) i blob offsets = _
    rw [assembleAux]
    simp only [buildChunk, List.length_nil, Nat.zero_mod]
    norm_num
    rw [ih]
    simp [List.replicate_succ, List.append_assoc]

/-- Lookup via `alLookup` misses exactly the keys that are not in the table. -/
theorem alLookup_eq_none_iff {α : Type} (t : List (String × α)) (k : String) :
    alLookup t k = none ↔ k ∉ t.map Prod.fst := by
  induction t with
  | nil => simp [alLookup]
  | cons p rest ih =>
    rw [alLookup]
    by_cases h : p.1 = k
    · simp [h]
    · rw [if_neg h, ih]
      simp only [List.map_cons, List.mem_cons, not_or]
      constructor
      · intro hk; exact ⟨fun he => h he.symm, hk⟩
      · intro hk; exact hk.2

/-- Appending a fresh binding makes its key resolve to it. -/
theorem alLookup_append_single {α : Type} (t : List (String × α)) (k : String)
    (v : α) (h : alLookup t k = none) : alLookup (t ++ [(k, v)]) k = some v := by
  induction t with
  | nil => simp [alLookup]
  | cons p rest ih =>
    rw [List.cons_append, alLookup]
    rw [alLookup] at h
    by_cases hp : p.1 = k
    · rw [if_pos hp] at h; exact absurd h (by simp)
    · rw [if_neg hp] at h
      rw [if_neg hp]
      exact ih h

/-- Interning preserves the controller invariant. -/
theorem applySymOp_inv (c : Controller) (op : SymOp) (h : controllerInv c) :
    controllerInv (applySymOp c op) := by
  obtain ⟨ht, hf, hx, nt, nf, nx⟩ := h
  cases op with
  | tag name =>
    show controllerInv (insertTag c name).2
    rw [insertTag]
    cases hl : alLookup c.tags name with
    | some v => exact ⟨ht, hf, hx, nt, nf, nx⟩
    | none =>
      refine ⟨?_, hf, hx, ?_, nf, nx⟩
      · show (c.tags ++ [(name, c.tagCount)]).map Prod.snd =
          List.range (c.tagCount + 1)
        rw [List.map_append, ht, List.range_succ]
        rfl
      · rw [List.map_append, List.nodup_append]
        refine ⟨nt, List.nodup_singleton _, ?_⟩
        intro a ha hb
        simp at hb
        exact (alLookup_eq_none_iff c.tags name).mp hl (hb ▸ ha)
  | flag name =>
    show controllerInv (insertFlag c name).2
    rw [insertFlag]
    cases hl : alLookup c.flags name with
    | some v => exact ⟨ht, hf, hx, nt, nf, nx⟩
    | none =>
      refine ⟨ht, ?_, hx, nt, ?_, nx⟩
      · show (c.flags ++ [(name, c.flagCount)]).map Prod.snd =
          List.range (c.flagCount + 1)
        rw [List.map_append, hf, List.range_succ]
        rfl
      · rw [List.map_append, List.nodup_append]
        refine ⟨nf, List.nodup_singleton _, ?_⟩
        intro a ha hb
        simp at hb
        exact (alLookup_eq_none_iff c.flags name).mp hl (hb ▸ ha)
  | text name =>
    show controllerInv (insertText c name).2
    rw [insertText]
    cases hl : alLookup c.text name with
    | some v => exact ⟨ht, hf, hx, nt, nf, nx⟩
    | none =>
      refine ⟨ht, hf, ?_, nt, nf, ?_⟩
      · show (c.text ++ [(name, c.textCount)]).map Prod.snd =
          List.range (c.textCount + 1)
        rw [List.map_append, hx, List.range_succ]
        rfl
      · rw [List.map_append, List.nodup_append]
        refine ⟨nx, List.nodup_singleton _, ?_⟩
        intro a ha hb
        simp at hb
        exact (alLookup_eq_none_iff c.text name).mp hl (hb ▸ ha)

/-- The controller invariant holds along any sequence of interns. -/
theorem foldl_applySymOp_inv :
    ∀ (ops : List SymOp) (c : Controller), controllerInv c →
      controllerInv (ops.foldl applySymOp c) := by
  intro ops
  induction ops with
  | nil => intro c h; exact h
  | cons op rest ih => intro c h; exact ih _ (applySymOp_inv c op h)

/-- C6: symbol-table behaviour.  Interning a name already present in a
table returns its existing index and leaves the controller unchanged;
interning a new name assigns the next unused index, appends only to its
own table and bumps only its own counter (the three tables number
independently); and along every sequence of intern operations from the
fresh controller each table's indices are exactly the contiguous range
`0..count` with no name bound twice. -/
theorem c6_symbol_tables :
    (∀ (c : Controller) (name : String) (i : Nat),
      alLookup c.tags name = some i → insertTag c name = (i, c)) ∧
    (∀ (c : Controller) (name : String) (i : Nat),
      alLookup c.flags name = some i → insertFlag c name = (i, c)) ∧
    (∀ (c : Controller) (name : String) (i : Nat),
      alLookup c.text name = some i → insertText c name = (i, c)) ∧
    (∀ (c : Controller) (name : String), alLookup c.tags name = none →
      insertTag c name = (c.tagCount,
        { c with tags := c.tags ++ [(name, c.tagCount)],
                 tagCount := c.tagCount + 1 })) ∧
    (∀ (c : Controller) (name : String), alLookup c.flags name = none →
      insertFlag c name = (c.flagCount,
        { c with flags := c.flags ++ [(name, c.flagCount)],
                 flagCount := c.flagCount + 1 })) ∧
    (∀ (c : Controller) (name : String), alLookup c.text name = none →
      insertText c name = (c.textCount,
        { c with text := c.text ++ [(name, c.textCount)],
                 textCount := c.textCount + 1 })) ∧
    controllerInv Controller.new ∧
    (∀ ops : List SymOp, controllerInv (ops.foldl applySymOp Controller.new)) := by
  refine ⟨?_, ?_, ?_, ?_, ?_, ?_, ?_, ?_⟩
  · intro c name i h; rw [insertTag, h]
  · intro c name i h; rw [insertFlag, h]
  · intro c name i h; rw [insertText, h]
  · intro c name h; rw [insertTag, h]
  · intro c name h; rw [insertFlag, h]
  · intro c name h; rw [insertText, h]
  · exact ⟨rfl, rfl, rfl, List.nodup_nil, List.nodup_nil, List.nodup_nil⟩
  · intro ops
    exact foldl_applySymOp_inv ops Controller.new
      ⟨rfl, rfl, rfl, List.nodup_nil, List.nodup_nil, List.nodup_nil⟩

/-- Witness for C6 at concrete inputs: re-interning `"a"` into a
controller that already maps it to 0 returns `(0, unchanged)`, and
interning the new name `"b"` into the same controller assigns index
1. -/
theorem c6_symbol_tables_witness :
    insertTag ⟨[("a", 0)], [], [], 1, 0, 0⟩ "a" =
      (0, ⟨[("a", 0)], [], [], 1, 0, 0⟩) ∧
    insertTag ⟨[("a", 0)], [], [], 1, 0, 0⟩ "b" =
      (1, ⟨[("a", 0), ("b", 1)], [], [], 2, 0, 0⟩) :=
  ⟨c6_symbol_tables.1 ⟨[("a", 0)], [], [], 1, 0, 0⟩ "a" 0 rfl,
   c6_symbol_tables.2.2.2.1 ⟨[("a", 0)], [], [], 1, 0, 0⟩ "b" rfl⟩

/-- C8: parsing an `@name` location reference interns the name into the
tag table before resolution (so it is present afterwards whether or not
resolution succeeds); when the location table has no entry for the name
parsing fails with the error naming the missing tag, and otherwise the
location resolves to the entry's coordinates. -/
theorem c8_location_resolution (name : String) (rest : List LexItem)
    (c : Controller) (locs : LocTable) :
    parseLocation (LexItem.ok (Token.At name) :: rest) c locs =
      (match alLookup locs name with
       | some cords =>
         PR.ok (Location.Cords cords.1 cords.2) rest (insertTag c name).2
       | none =>
         PR.err ("location " ++ name ++ " not found!") (insertTag c name).2) ∧
    alLookup (insertTag c name).2.tags name = some (insertTag c name).1 := by
  constructor
  · rfl
  · rw [insertTag]
    cases hl : alLookup c.tags name with
    | some v => exact hl
    | none => exact alLookup_append_single c.tags name c.tagCount hl

/-- One assembler step on a chunk whose buffer fits the budget. -/
theorem assembleAux_cons_ok (chunk : List Script) (rest : List (List Script))
    (i : Nat) (blob : List (List Nat)) (offsets tmp offsets' : List Nat)
    (h : buildChunk (blob.length % 65536) chunk [] offsets = (tmp, offsets'))
    (hlen : tmp.length ≤ 128) :
    assembleAux (chunk :: rest) i blob offsets =
      assembleAux rest (i + 1) (blob ++ [tmp]) offsets' := by
  rw [assembleAux, h]
  simp [Nat.not_lt.mpr hlen]

/-- The buffer built by the command loop grows by exactly the encoded
size of the commands. -/
theorem buildCmds_fst_length (base : Nat) (cmds : List Cmd) :
    ∀ tmp offsets, (buildCmds base cmds tmp offsets).1.length =
      tmp.length + cmdsSize cmds := by
  induction cmds with
  | nil => intro tmp offsets; simp [buildCmds, cmdsSize]
  | cons cmd rest ih =>
    intro tmp offsets
    rw [buildCmds, ih]
    simp [cmdsSize]
    omega

/-- The buffer built by the chunk loop grows by exactly the chunk's
encoded size. -/
theorem buildChunk_fst_length (base : Nat) (scripts : List Script) :
    ∀ tmp offsets, (buildChunk base scripts tmp offsets).1.length =
      tmp.length + chunkSize scripts := by
  induction scripts with
  | nil => intro tmp offsets; simp [buildChunk, chunkSize]
  | cons s rest ih =>
    intro tmp offsets
    rw [buildChunk, ih, buildCmds_fst_length]
    simp [chunkSize]
    omega

/-- One assembler step on a chunk whose buffer exceeds the budget:
assembly aborts with the chunk-overflow error naming the chunk index,
the actual size and the maximum size. -/
theorem assembleAux_cons_err (chunk : List Script) (rest : List (List Script))
    (i : Nat) (blob : List (List Nat)) (offsets : List Nat)
    (h : 128 < (buildChunk (blob.length % 65536) chunk [] offsets).1.length) :
    assembleAux (chunk :: rest) i blob offsets =
      Except.error ("chunk " ++ toString i ++ " too large, " ++
        toString (buildChunk (blob.length % 65536) chunk [] offsets).1.length ++
        " bytes instead of 128") := by
  rw [assembleAux]
  simp [h]

/-- When every chunk's buffer fits the budget, assembly succeeds. -/
theorem assembleAux_ok_of_fits :
    ∀ (chunks : List (List Script)) (i : Nat) (blob : List (List Nat))
      (offsets : List Nat), (∀ ch ∈ chunks, chunkSize ch ≤ 128) →
      ∃ out, assembleAux chunks i blob offsets = Except.ok out := by
  intro chunks
  induction chunks with
  | nil => intro i blob offsets _; exact ⟨⟨blob, offsets⟩, rfl⟩
  | cons ch rest ih =>
    intro i blob offsets hfit
    have hl : (buildChunk (blob.length % 65536) ch [] offsets).1.length ≤ 128 := by
      rw [buildChunk_fst_length]
      simpa using hfit ch (List.mem_cons_self ch rest)
    rw [assembleAux_cons_ok ch rest i blob offsets _ _ rfl hl]
    exact ih (i + 1) _ _ (fun ch' h' => hfit ch' (List.mem_cons_of_mem ch h'))

/-- C4: Scenario E.  Assembling 129 one-`Msg` scripts (4 encoded bytes
each, terminator included) all sitting in chunk 0 fails with the
chunk-overflow error naming chunk 0, the actual size 516 and the
maximum size 128; and no compilation all of whose chunk buffers fit the
128-byte budget fails. -/
theorem c4_chunk_overflow :
    assemble_scripts scenE_parsed =
      Except.error "chunk 0 too large, 516 bytes instead of 128" ∧
    (∀ parsed : ParsedScripts, (∀ ch ∈ parsed.chunks, chunkSize ch ≤ 128) →
      ∃ out, assemble_scripts parsed = Except.ok out) := by
  constructor
  · have hs : (buildChunk (List.length ([] : List (List Nat)) % 65536)
        (List.replicate 129 ⟨[Cmd.Msg ⟨"x", 0⟩], 0, 0⟩) [] []).1.length = 516 := by
      rw [buildChunk_fst_length]
      rfl
    show assembleAux
      (List.replicate 129 ⟨[Cmd.Msg ⟨"x", 0⟩], 0, 0⟩ :: List.replicate 2047 [])
      0 [] [] = _
    rw [assembleAux_cons_err _ _ _ _ _ (by rw [hs]; norm_num), hs]
    rfl
  · intro parsed hfit
    exact assembleAux_ok_of_fits parsed.chunks 0 [] [] hfit

/-- C1: the recorded offsets follow neither consistent byte-addressing
scheme.  `base_offset = blob.len()` counts previously pushed chunk
*buffers*, not bytes, so a successfully assembled compilation whose
single one-command script sits in chunk 1 records the offset 1, although
the command's encoding begins at byte 0 of its own chunk's buffer
(chunk-relative position 0) and at byte 0 of the whole concatenated
output (absolute position 0, all preceding chunks being empty). -/
theorem c1_offset_scheme :
    parse_scripts chunk1_scripts [] = PRes.ok chunk1_parsed ∧
    assemble_scripts chunk1_parsed = Except.ok chunk1_out ∧
    chunk1_out.offsets = [1] ∧
    ((chunk1_out.blob.take 1).flatten.length = 0 ∧
      (chunk1_out.blob.get? 1 = some [0, 0, 0, 0])) ∧
    (1 : Nat) ≠ 0 := by
  refine ⟨rfl, ?_, rfl, ⟨rfl, rfl⟩, one_ne_zero⟩
  show assembleAux
    ([] :: [⟨[Cmd.Msg ⟨"a", 0⟩], 8, 0⟩] :: List.replicate 2046 []) 0 [] [] = _
  rw [assembleAux_cons_ok [] _ 0 [] [] [] [] rfl (by norm_num)]
  show assembleAux ([⟨[Cmd.Msg ⟨"a", 0⟩], 8, 0⟩] :: List.replicate 2046 [])
    1 [[]] [] = _
  rw [assembleAux_cons_ok [⟨[Cmd.Msg ⟨"a", 0⟩], 8, 0⟩] _ 1 [[]] [] [0, 0, 0, 0]
      [1] rfl (by norm_num)]
  show assembleAux (List.replicate 2046 []) 2 [[], [0, 0, 0, 0]] [1] = _
  rw [assembleAux_replicate_nil]
  rfl

/-- C3: the lexer is not total on overlong digit runs.  A maximal digit
run whose value fits `u32` but exceeds 16 bits is reported as the
lexical error the spec asks for, but a run whose value also exceeds 32
bits makes `num.parse::<u32>().unwrap()` panic instead of returning an
error: the digit run `4294967296` (2^32) aborts the lexer. -/
theorem c3_number_overflow :
    lexNext "4294967296;".toList false = some (LexItem.panicked, [';'], false) ∧
    lexNext "70000;".toList false =
      some (LexItem.err "vaule too large for uint16: 70000", [';'], false) ∧
    lexNext "123;".toList false =
      some (LexItem.ok (Token.Number 123), [';'], false) ∧
    lexString "4294967296;" = [LexItem.panicked] :=
  ⟨rfl, rfl, rfl, rfl⟩

/-- C9 counterexample: after the `@` sigil the lexer accepts a name
whose first character is a digit — `"@1x;"` lexes to the reference
token `At "1x"` — refuting the claim that a sigil followed by anything
but a non-digit-leading identifier is not accepted as a reference token
with that name. -/
theorem c9_counterexample :
    lexNext "@1x;".toList false =
      some (LexItem.ok (Token.At "1x"), [';'], false) ∧
    rsIsDigit '1' = true ∧
    lexString "@1x;" = [LexItem.ok (Token.At "1x"), LexItem.ok Token.Eof] :=
  ⟨rfl, rfl, rfl⟩

/-- C9 (amended): after an `@` or `!` sigil the lexer unconditionally
consumes one character (substituting NUL when the input is exhausted)
and then the maximal following run of alphanumerics/underscores; the
reference token's name is that first character followed by the run,
with no validation of the first character. -/
theorem c9_sigil_names (cs : List Char) :
    lexNext ('@' :: cs) false =
      (match cs with
       | [] => some (LexItem.ok (Token.At (String.mk [Char.ofNat 0])), [], false)
       | c :: r =>
         some (LexItem.ok (Token.At (String.mk (c :: r.takeWhile rsIsAlnumU))),
           r.dropWhile rsIsAlnumU, false)) ∧
    lexNext ('!' :: cs) false =
      (match cs with
       | [] => some (LexItem.ok (Token.Bang (String.mk [Char.ofNat 0])), [], false)
       | c :: r =>
         some (LexItem.ok (Token.Bang (String.mk (c :: r.takeWhile rsIsAlnumU))),
           r.dropWhile rsIsAlnumU, false)) := by
  cases cs with
  | nil => exact ⟨rfl, rfl⟩
  | cons c r => exact ⟨rfl, rfl⟩

/-- Source `parse_branch` reports an absent branch exactly when the token it
consumed was the closing keyword `endif`. -/
theorem parseBranchF_ok_none (pc : List LexItem → Controller → PR Cmd)
    (s : List LexItem) (c : Controller) (s' : List LexItem) (c' : Controller)
    (h : parseBranchF pc s c = PR.ok none s' c') :
    s = LexItem.ok (Token.Ident "endif") :: s' ∧ c' = c := by
  cases s with
  | nil => simp [parseBranchF] at h
  | cons item rest =>
    cases item with
    | err e => simp [parseBranchF] at h
    | panicked => simp [parseBranchF] at h
    | ok tok =>
      cases tok with
      | Ident t =>
        simp only [parseBranchF] at h
        by_cases ht : t = "endif"
        · rw [if_pos ht] at h
          simp only [PR.ok.injEq] at h
          exact ⟨by rw [ht, h.2.1], h.2.2.symm⟩
        · rw [if_neg ht] at h
          cases hpc : pc rest c with
          | ok a s1 c1 => rw [hpc] at h; simp at h
          | err e c1 => rw [hpc] at h; simp at h
          | panicked c1 => rw [hpc] at h; simp at h
      | Number n => simp [parseBranchF] at h
      | Text t => simp [parseBranchF] at h
      | At t => simp [parseBranchF] at h
      | Bang t => simp [parseBranchF] at h
      | Semicolon => simp [parseBranchF] at h
      | Eof => simp [parseBranchF] at h

/-- C2 counterexample: the then-only closing keyword is both required
and consumed, refuting the claim.  Parsing
`"if flag_X then setflag flag_Y;"` (then-only, no closing keyword)
fails, and parsing the then-only `"if flag_X then setflag flag_Y
endif;"` succeeds with the `endif` token consumed — only the `Eof`
token remains. -/
theorem c2_counterexample :
    parseFull "if flag_X then setflag flag_Y;" Controller.new [] =
      PR.err "invalid token after if" c2w_c2 ∧
    parseCmd 9 (lexString "if flag_X then setflag flag_Y endif;")
        Controller.new [] =
      PR.ok
        (Cmd.If (Condition.FlagSet ⟨"flag_X", 0⟩)
          (Branch.Then (Cmd.SetFlag ⟨"flag_Y", 1⟩)))
        [LexItem.ok Token.Eof] c2w_c2 :=
  ⟨rfl, rfl⟩

/-- C2 (amended): after the then-branch of an `if`, the parser always
consumes one more token via `parse_branch`.  An if without an
else-branch is exactly one whose `parse_branch` call finds the closing
keyword `endif` there — so for a then-only `if` the closing keyword is
required and consumed; when an else-branch is present instead, the
closing keyword must immediately follow it, and otherwise parsing does
not succeed. -/
theorem c2_if_closing (n : Nat) (s : List LexItem) (c : Controller)
    (locs : LocTable) (cond : Condition) (s1 : List LexItem) (c1 : Controller)
    (tb : Cmd) (s2 : List LexItem) (c2 : Controller)
    (hcond : parseCondition s c = PR.ok cond s1 c1)
    (hthen : parseBranch n s1 c1 locs = PR.ok (some tb) s2 c2) :
    (∀ (s3 : List LexItem) (c3 : Controller),
      parseBranch n s2 c2 locs = PR.ok none s3 c3 →
        s2 = LexItem.ok (Token.Ident "endif") :: s3 ∧ c3 = c2 ∧
        parseIf n s c locs = PR.ok (Cmd.If cond (Branch.Then tb)) s3 c3) ∧
    (∀ (eb : Cmd) (s3 : List LexItem) (c3 : Controller),
      parseBranch n s2 c2 locs = PR.ok (some eb) s3 c3 →
        (∀ s4, s3 = LexItem.ok (Token.Ident "endif") :: s4 →
          parseIf n s c locs =
            PR.ok (Cmd.If cond (Branch.ThenElse tb eb)) s4 c3) ∧
        ((∀ s4, s3 ≠ LexItem.ok (Token.Ident "endif") :: s4) →
          ∀ (cmd : Cmd) (s5 : List LexItem) (c5 : Controller),
            parseIf n s c locs ≠ PR.ok cmd s5 c5)) := by
  rw [parseBranch] at hthen
  have h0 : parseIf n s c locs =
      parseIfElse (fun s' c' => parseCmd n s' c' locs) cond tb s2 c2 := by
    rw [parseIf, parseIfF, hcond]
    show parseIfThen (fun s' c' => parseCmd n s' c' locs) cond s1 c1 = _
    rw [parseIfThen, hthen]
  constructor
  · intro s3 c3 hnone
    rw [parseBranch] at hnone
    obtain ⟨hs2, hc3⟩ := parseBranchF_ok_none _ s2 c2 s3 c3 hnone
    refine ⟨hs2, hc3, ?_⟩
    rw [h0, parseIfElse, hnone]
  · intro eb s3 c3 hsome
    rw [parseBranch] at hsome
    have h1 : parseIf n s c locs = parseIfEnd cond tb eb s3 c3 := by
      rw [h0, parseIfElse, hsome]
    constructor
    · intro s4 hs3
      rw [h1, hs3]
      rfl
    · intro hne cmd s5 c5
      rw [h1]
      cases s3 with
      | nil => simp [parseIfEnd]
      | cons item s4 =>
        cases item with
        | ok tok =>
          cases tok with
          | Ident t =>
            by_cases ht : t = "endif"
            · exact absurd (by rw [ht] : LexItem.ok (Token.Ident t) :: s4 =
                LexItem.ok (Token.Ident "endif") :: s4) (hne s4)
            · simp [parseIfEnd, ht]
          | Number m => simp [parseIfEnd]
          | Text t => simp [parseIfEnd]
          | At t => simp [parseIfEnd]
          | Bang t => simp [parseIfEnd]
          | Semicolon => simp [parseIfEnd]
          | Eof => simp [parseIfEnd]
        | err e => simp [parseIfEnd]
        | panicked => simp [parseIfEnd]

/-- Witness for C2 (amended) on the then-only stream of
`"if flag_X then setflag flag_Y endif;"`: `parse_branch` finds the
closing keyword after the then-branch, the keyword is consumed, and the
`if` parses to a then-only branch with only `Eof` left. -/
theorem c2_if_closing_witness :
    [LexItem.ok (Token.Ident "endif"), LexItem.ok Token.Eof] =
      LexItem.ok (Token.Ident "endif") :: [LexItem.ok Token.Eof] ∧
    c2w_c2 = c2w_c2 ∧
    parseIf 9 c2w_stream Controller.new [] =
      PR.ok
        (Cmd.If (Condition.FlagSet ⟨"flag_X", 0⟩)
          (Branch.Then (Cmd.SetFlag ⟨"flag_Y", 1⟩)))
        [LexItem.ok Token.Eof] c2w_c2 :=
  (c2_if_closing 9 c2w_stream Controller.new [] (Condition.FlagSet ⟨"flag_X", 0⟩)
      (c2w_stream.drop 1) c2w_c1 (Cmd.SetFlag ⟨"flag_Y", 1⟩)
      [LexItem.ok (Token.Ident "endif"), LexItem.ok Token.Eof] c2w_c2
      rfl rfl).1
    [LexItem.ok Token.Eof] c2w_c2 rfl

/-- The loop body of `Parser::parse` never returns an empty command
list: it always pushes the command it just parsed. -/
theorem parseLoopStep_ne_nil (recur : List LexItem → Controller → PR (List Cmd))
    (r : PR Cmd) (s' : List LexItem) (c' : Controller) :
    parseLoopStep recur r ≠ PR.ok [] s' c' := by
  cases r with
  | ok cmd s1 c1 =>
    rw [parseLoopStep]
    cases hq : recur s1 c1 with
    | ok cmds s2 c2 => simp
    | err e c2 => simp
    | panicked c2 => simp
  | err e c1 => simp [parseLoopStep]
  | panicked c1 => simp [parseLoopStep]

/-- A run of `Parser::parse` that returns an empty command list made no
pass through the loop body: the controller is returned unchanged. -/
theorem parseLoop_ok_nil (n : Nat) (s : List LexItem) (c : Controller)
    (locs : LocTable) (s' : List LexItem) (c' : Controller)
    (h : parseLoop n s c locs = PR.ok [] s' c') : c' = c := by
  cases n with
  | zero => simp [parseLoop] at h
  | succ n =>
    cases s with
    | nil => simp [parseLoop] at h
    | cons item rest =>
      cases item with
      | ok tok =>
        cases tok with
        | Eof => simp only [parseLoop, PR.ok.injEq] at h; exact h.2.2.symm
        | Ident t =>
          have h2 : parseLoopStep (fun u v => parseLoop n u v locs)
              (parseCmd (n + 1) (LexItem.ok (Token.Ident t) :: rest) c locs) = PR.ok [] s' c' := h
          exact absurd h2 (parseLoopStep_ne_nil _ _ _ _)
        | Number m =>
          have h2 : parseLoopStep (fun u v => parseLoop n u v locs)
              (parseCmd (n + 1) (LexItem.ok (Token.Number m) :: rest) c locs) = PR.ok [] s' c' := h
          exact absurd h2 (parseLoopStep_ne_nil _ _ _ _)
        | Text t =>
          have h2 : parseLoopStep (fun u v => parseLoop n u v locs)
              (parseCmd (n + 1) (LexItem.ok (Token.Text t) :: rest) c locs) = PR.ok [] s' c' := h
          exact absurd h2 (parseLoopStep_ne_nil _ _ _ _)
        | At t =>
          have h2 : parseLoopStep (fun u v => parseLoop n u v locs)
              (parseCmd (n + 1) (LexItem.ok (Token.At t) :: rest) c locs) = PR.ok [] s' c' := h
          exact absurd h2 (parseLoopStep_ne_nil _ _ _ _)
        | Bang t =>
          have h2 : parseLoopStep (fun u v => parseLoop n u v locs)
              (parseCmd (n + 1) (LexItem.ok (Token.Bang t) :: rest) c locs) = PR.ok [] s' c' := h
          exact absurd h2 (parseLoopStep_ne_nil _ _ _ _)
        | Semicolon =>
          have h2 : parseLoopStep (fun u v => parseLoop n u v locs)
              (parseCmd (n + 1) (LexItem.ok Token.Semicolon :: rest) c locs) = PR.ok [] s' c' := h
          exact absurd h2 (parseLoopStep_ne_nil _ _ _ _)
      | err e =>
          have h2 : parseLoopStep (fun u v => parseLoop n u v locs)
              (parseCmd (n + 1) (LexItem.err e :: rest) c locs) = PR.ok [] s' c' := h
          exact absurd h2 (parseLoopStep_ne_nil _ _ _ _)
      | panicked =>
          have h2 : parseLoopStep (fun u v => parseLoop n u v locs)
              (parseCmd (n + 1) (LexItem.panicked :: rest) c locs) = PR.ok [] s' c' := h
          exact absurd h2 (parseLoopStep_ne_nil _ _ _ _)

/-- C10: a script whose parsed command body is empty is pushed into no
chunk and leaves the whole remaining compilation unchanged — the result
of `parse_scripts` on a list containing it equals the result on the
list with it removed, and in particular it contributes no bytes and no
offsets to the assembled output, while the symbol tables carry the
(empty) updates of its parse as usual. -/
theorem c10_empty_body_omitted (locs : LocTable) (e : ScriptEntry)
    (rest : List ScriptEntry) (chunks : List (List Script)) (c : Controller)
    (s' : List LexItem) (c' : Controller)
    (h : parseFull e.script c locs = PR.ok [] s' c') :
    c' = c ∧
    parseScriptsAux locs (e :: rest) chunks c =
      parseScriptsAux locs rest chunks c := by
  have hc : c' = c := by
    rw [parseFull] at h
    exact parseLoop_ok_nil _ _ _ _ _ _ h
  refine ⟨hc, ?_⟩
  rw [parseScriptsAux, h, hc]
  simp

/-- Witness for C10: the script `";"` parses to an empty body with the
controller untouched, and dropping it from a compilation changes
nothing. -/
theorem c10_empty_body_omitted_witness :
    Controller.new = Controller.new ∧
    parseScriptsAux [] [⟨0, ";", 0, 0⟩] [] Controller.new =
      parseScriptsAux [] [] [] Controller.new :=
  c10_empty_body_omitted [] ⟨0, ";", 0, 0⟩ [] [] Controller.new
    [LexItem.ok Token.Eof] Controller.new rfl

/-- C7: the pipeline is deterministic — parsing and assembling equal
ordered script lists against equal location tables yields equal parsed
scripts (chunks and symbol tables) and equal assembled output (blobs
and offsets). -/
theorem c7_determinism (s₁ s₂ : List ScriptEntry) (L₁ L₂ : LocTable)
    (hs : s₁ = s₂) (hL : L₁ = L₂) :
    parse_scripts s₁ L₁ = parse_scripts s₂ L₂ ∧
    compileScripts s₁ L₁ = compileScripts s₂ L₂ := by
  subst hs; subst hL; exact ⟨rfl, rfl⟩

/-- Witness for C7 at a concrete input: the Scenario D compilation run
twice gives identical results. -/
theorem c7_determinism_witness :
    parse_scripts scenD_scripts [] = parse_scripts scenD_scripts [] ∧
    compileScripts scenD_scripts [] = compileScripts scenD_scripts [] :=
  c7_determinism scenD_scripts scenD_scripts [] [] rfl rfl

/-- Witness for C4's fits-implies-success half at a concrete input: the
empty compilation (every chunk empty, hence within budget) assembles
successfully. -/
theorem c4_chunk_overflow_witness :
    ∃ out, assemble_scripts ⟨List.replicate 2048 [], [], [], []⟩ =
      Except.ok out :=
  c4_chunk_overflow.2 ⟨List.replicate 2048 [], [], [], []⟩
    (by
      intro ch hch
      rw [List.eq_of_mem_replicate hch]
      simp [chunkSize])

/-- C5: Scenario D.  Two scripts at tile positions (1,1) and (2,1), each
a single `Msg` with a distinct text: parsing interns the texts to
indices 0 and 1 and places both scripts in chunk 0, each `Msg` encodes
to 4 bytes including its terminator, and assembly yields offset list
`[0, 4]` and chunk-0 bytes `[0,0,0,0, 0,1,0,0]`. -/
theorem c5_scenario_d :
    parse_scripts scenD_scripts [] = PRes.ok scenD_parsed ∧
    assemble_scripts scenD_parsed =
      Except.ok ⟨[0, 0, 0, 0, 0, 1, 0, 0] :: List.replicate 2047 [], [0, 4]⟩ ∧
    chunk_index 1 1 = 0 ∧ chunk_index 2 1 = 0 ∧
    (Cmd.Msg ⟨"a", 0⟩).toBytes ++ [0] = [0, 0, 0, 0] ∧
    (Cmd.Msg ⟨"b", 1⟩).toBytes ++ [0] = [0, 1, 0, 0] := by
  refine ⟨?_, ?_, rfl, rfl, rfl, rfl⟩
  · rfl
  · show assembleAux
      ([⟨[Cmd.Msg ⟨"a", 0⟩], 1, 1⟩, ⟨[Cmd.Msg ⟨"b", 1⟩], 2, 1⟩] ::
        List.replicate 2047 []) 0 [] [] = _
    rw [assembleAux_cons_ok
        [⟨[Cmd.Msg ⟨"a", 0⟩], 1, 1⟩, ⟨[Cmd.Msg ⟨"b", 1⟩], 2, 1⟩]
        (List.replicate 2047 []) 0 [] [] [0, 0, 0, 0, 0, 1, 0, 0] [0, 4] rfl
        (by norm_num), assembleAux_replicate_nil]
    rfl

end CGT
